import Mathlib

/-!
Verification of the todo command-line task manager.

Shallow embedding of the persistence-and-filtering core:
* `src/todo/models/record.py` — `TodoRecord.to_json_dict` / `from_json_dict`
* `src/src/storage.py` — `TodoStorage.load_todos` / `save_todos` / `add_todo` /
  `remove_todo` / `get_todo` / `mark_completed`, `generate_todo_id`
* `src/todo/core/todo.py` — `handle_add_task`, `_filtered_list`, `_sort_todo_list`

Python `datetime` values are embedded as a structure of `Nat` fields;
`datetime.isoformat` / `datetime.fromisoformat` / `strftime` / `strptime` are
embedded as executable renderers and parsers over `List Char`.
`pathlib.Path` values are embedded as their normalized string rendering, with
`pathJoin` implementing the `/` operator of `PurePath` on such strings.
The JSON object produced by `to_json_dict` is embedded as a `Payload`
structure whose `Option` fields distinguish present from absent keys.
-/

namespace TodoApp

/-! ## Digits and zero-padded decimal rendering (for strftime / isoformat) -/

/-- The ASCII digit character for `n < 10`. -/
def digitChar (n : Nat) : Char := Char.ofNat (48 + n)

/-- Two-digit zero-padded rendering, as produced by Python `%02d`. -/
def pad2 (n : Nat) : List Char := [digitChar (n / 10), digitChar (n % 10)]

/-- Four-digit zero-padded rendering, as produced by Python `%04d`. -/
def pad4 (n : Nat) : List Char := pad2 (n / 100) ++ pad2 (n % 100)

/-- Six-digit zero-padded rendering, as produced by Python `%06d`. -/
def pad6 (n : Nat) : List Char := pad2 (n / 10000) ++ pad4 (n % 10000)

/-- Numeric value of an ASCII digit character. -/
def digitVal (c : Char) : Option Nat :=
  if c.isDigit then some (c.toNat - 48) else none

theorem digitVal_digitChar (n : Nat) (h : n < 10) :
    digitVal (digitChar n) = some n := by
  interval_cases n <;> decide

theorem digitChar_inj (a b : Nat) (ha : a < 10) (hb : b < 10)
    (h : digitChar a = digitChar b) : a = b := by
  have := digitVal_digitChar a ha
  rw [h, digitVal_digitChar b hb] at this
  exact (Option.some_inj.mp this).symm

/-! ## The Python `datetime` value -/

/-- Embedding of a Python `datetime.datetime` value. -/
structure DateTime where
  year : Nat
  month : Nat
  day : Nat
  hour : Nat
  minute : Nat
  second : Nat
  microsecond : Nat
deriving DecidableEq, Repr

/-- Gregorian leap-year rule, as used by Python `datetime`. -/
def isLeap (y : Nat) : Bool := (y % 4 == 0 && y % 100 != 0) || y % 400 == 0

/-- Days in a month, as validated by the Python `datetime` constructor. -/
def daysInMonth (y m : Nat) : Nat :=
  if m = 2 then (if isLeap y then 29 else 28)
  else if m = 4 ∨ m = 6 ∨ m = 9 ∨ m = 11 then 30
  else 31

theorem daysInMonth_le (y m : Nat) : daysInMonth y m ≤ 31 := by
  unfold daysInMonth
  split_ifs <;> omega

/-- The range constraints enforced by the Python `datetime` constructor. -/
def DateTime.valid (d : DateTime) : Prop :=
  1 ≤ d.year ∧ d.year ≤ 9999 ∧ 1 ≤ d.month ∧ d.month ≤ 12 ∧
  1 ≤ d.day ∧ d.day ≤ daysInMonth d.year d.month ∧
  d.hour ≤ 23 ∧ d.minute ≤ 59 ∧ d.second ≤ 59 ∧ d.microsecond ≤ 999999

instance (d : DateTime) : Decidable d.valid := by
  unfold DateTime.valid; infer_instance

/-- `datetime.max`, used by `_sort_todo_list` for tasks without a due date. -/
def dtMax : DateTime := ⟨9999, 12, 31, 23, 59, 59, 999999⟩

/-! ## `datetime.isoformat` -/

/-- Character list of `d.isoformat()`: `YYYY-MM-DDTHH:MM:SS` with a
`.ffffff` suffix exactly when the microsecond field is nonzero. -/
def isoChars (d : DateTime) : List Char :=
  pad4 d.year ++ '-' :: pad2 d.month ++ '-' :: pad2 d.day ++
  'T' :: pad2 d.hour ++ ':' :: pad2 d.minute ++ ':' :: pad2 d.second ++
  (if d.microsecond = 0 then [] else '.' :: pad6 d.microsecond)

/-- Embedding of `datetime.isoformat()`. -/
def isoformat (d : DateTime) : String := String.mk (isoChars d)

/-! ## `datetime.fromisoformat` -/

/-- Parse two ASCII digits, returning the value and the remaining input. -/
def parse2 : List Char → Option (Nat × List Char)
  | c1 :: c2 :: rest =>
    match digitVal c1, digitVal c2 with
    | some a, some b => some (10 * a + b, rest)
    | _, _ => none
  | _ => none

/-- Parse four ASCII digits. -/
def parse4 (l : List Char) : Option (Nat × List Char) :=
  (parse2 l).bind fun p => (parse2 p.2).map fun q => (p.1 * 100 + q.1, q.2)

/-- Consume one expected character. -/
def expect (c : Char) : List Char → Option (List Char)
  | d :: rest => if d = c then some rest else none
  | [] => none

/-- Parse the optional 6-digit fractional-second part emitted by
`isoformat` (empty input means a zero microsecond field). -/
def parseFrac : List Char → Option (Nat × List Char)
  | [] => some (0, [])
  | '.' :: l =>
    (parse2 l).bind fun a =>
    (parse2 a.2).bind fun b =>
    (parse2 b.2).map fun c => (a.1 * 10000 + b.1 * 100 + c.1, c.2)
  | _ => none

/-- Parse the time-of-day part: empty input yields midnight, as
`fromisoformat` does for a date-only string. -/
def parseTime : List Char → Option (Nat × Nat × Nat × Nat)
  | [] => some (0, 0, 0, 0)
  | sep :: l =>
    if sep = 'T' ∨ sep = ' ' then
      (parse2 l).bind fun h =>
      (expect ':' h.2).bind fun l2 =>
      (parse2 l2).bind fun mi =>
      (expect ':' mi.2).bind fun l4 =>
      (parse2 l4).bind fun s =>
      (parseFrac s.2).bind fun us =>
      if us.2 = [] then some (h.1, mi.1, s.1, us.1) else none
    else none

/-- Final validation step: the Python `datetime` constructor raises on
out-of-range fields, which `fromisoformat` surfaces as a failure. -/
def mkValidDT (y mo d h mi s us : Nat) : Option DateTime :=
  if (⟨y, mo, d, h, mi, s, us⟩ : DateTime).valid then
    some ⟨y, mo, d, h, mi, s, us⟩
  else none

/-- Embedding of `datetime.fromisoformat` on character lists, covering the
formats that `isoformat` emits (timezone suffixes are not modelled because
the application never produces them). -/
def parseISO (l : List Char) : Option DateTime :=
  (parse4 l).bind fun y =>
  (expect '-' y.2).bind fun l1 =>
  (parse2 l1).bind fun mo =>
  (expect '-' mo.2).bind fun l2 =>
  (parse2 l2).bind fun d =>
  (parseTime d.2).bind fun t =>
  mkValidDT y.1 mo.1 d.1 t.1 t.2.1 t.2.2.1 t.2.2.2

/-- Embedding of `datetime.fromisoformat` on strings. -/
def fromisoformat (s : String) : Option DateTime := parseISO s.data

theorem parse2_pad2 (n : Nat) (h : n < 100) (rest : List Char) :
    parse2 (pad2 n ++ rest) = some (n, rest) := by
  have h1 : n / 10 < 10 := by omega
  have h2 : n % 10 < 10 := by omega
  simp [pad2, parse2, digitVal_digitChar _ h1, digitVal_digitChar _ h2]
  omega

theorem parse4_pad4 (n : Nat) (h : n < 10000) (rest : List Char) :
    parse4 (pad4 n ++ rest) = some (n, rest) := by
  have h1 : n / 100 < 100 := by omega
  have h2 : n % 100 < 100 := by omega
  simp [pad4, parse4, parse2_pad2 _ h1, parse2_pad2 _ h2]
  omega

theorem expect_cons (c : Char) (rest : List Char) :
    expect c (c :: rest) = some rest := by
  simp [expect]

theorem parse2_pad2_nil (n : Nat) (h : n < 100) :
    parse2 (pad2 n) = some (n, []) := by
  have := parse2_pad2 n h []
  simpa using this

theorem parseISO_isoChars (d : DateTime) (h : d.valid) :
    parseISO (isoChars d) = some d := by
  obtain ⟨y, mo, dd, hh, mi, ss, us⟩ := d
  have hv2 : DateTime.valid ⟨y, mo, dd, hh, mi, ss, us⟩ := h
  simp only [DateTime.valid] at h
  obtain ⟨h1, h2, h3, h4, h5, h6, h7, h8, h9, h10⟩ := h
  have hdays : daysInMonth y mo ≤ 31 := daysInMonth_le y mo
  by_cases hus : us = 0
  · subst hus
    simp [isoChars, parseISO, parseTime, parseFrac, mkValidDT, expect_cons,
      parse4_pad4 _ (by omega : y < 10000),
      parse2_pad2 _ (by omega : mo < 100),
      parse2_pad2 _ (by omega : dd < 100),
      parse2_pad2 _ (by omega : hh < 100),
      parse2_pad2 _ (by omega : mi < 100),
      parse2_pad2_nil _ (by omega : ss < 100), hv2]
  · have e6 : pad6 us =
        pad2 (us / 10000) ++
          (pad2 (us % 10000 / 100) ++ pad2 (us % 10000 % 100)) := by
      simp [pad6, pad4]
    have hrecon : us / 10000 * 10000 + us % 10000 / 100 * 100 +
        us % 10000 % 100 = us := by omega
    simp [isoChars, parseISO, parseTime, parseFrac, mkValidDT, expect_cons,
      hus, e6, hrecon,
      parse4_pad4 _ (by omega : y < 10000),
      parse2_pad2 _ (by omega : mo < 100),
      parse2_pad2 _ (by omega : dd < 100),
      parse2_pad2 _ (by omega : hh < 100),
      parse2_pad2 _ (by omega : mi < 100),
      parse2_pad2 _ (by omega : ss < 100),
      parse2_pad2 _ (by omega : us / 10000 < 100),
      parse2_pad2 _ (by omega : us % 10000 / 100 < 100),
      parse2_pad2_nil _ (by omega : us % 10000 % 100 < 100), hv2]

theorem fromisoformat_isoformat (d : DateTime) (h : d.valid) :
    fromisoformat (isoformat d) = some d :=
  parseISO_isoChars d h

theorem parseISO_valid {l : List Char} {d : DateTime}
    (h : parseISO l = some d) : d.valid := by
  unfold parseISO at h
  simp only [Option.bind_eq_some] at h
  obtain ⟨y, _, l1, _, mo, _, l2, _, dd, _, t, _, hmk⟩ := h
  unfold mkValidDT at hmk
  split at hmk
  · cases hmk; assumption
  · cases hmk

theorem isoChars_ne_nil (d : DateTime) : isoChars d ≠ [] := by
  unfold isoChars pad4 pad2
  simp

theorem isoformat_ne_empty (d : DateTime) : isoformat d ≠ "" := by
  intro h
  exact isoChars_ne_nil d (congrArg String.data h)

/-! ## `datetime.strptime(s, "%Y-%m-%d")` as used by `handle_add_task` -/

/-- Embedding of `datetime.strptime(s, "%Y-%m-%d")`: four digits, dash, two
digits, dash, two digits, nothing else; the resulting date is validated by
the `datetime` constructor and the time of day is midnight. -/
def strptimeDate (s : String) : Option DateTime :=
  (parse4 s.data).bind fun y =>
  (expect '-' y.2).bind fun l1 =>
  (parse2 l1).bind fun mo =>
  (expect '-' mo.2).bind fun l2 =>
  (parse2 l2).bind fun d =>
  if d.2 = [] then mkValidDT y.1 mo.1 d.1 0 0 0 0 else none

theorem strptimeDate_valid {s : String} {d : DateTime}
    (h : strptimeDate s = some d) : d.valid := by
  unfold strptimeDate at h
  simp only [Option.bind_eq_some] at h
  obtain ⟨y, _, l1, _, mo, _, l2, _, dd, _, hmk⟩ := h
  split at hmk
  · unfold mkValidDT at hmk
    split at hmk
    · cases hmk; assumption
    · cases hmk
  · cases hmk

/-! ## `generate_todo_id` (src/src/storage.py)

`f"{prefix}_{now.strftime('%Y%m%d_%HH%MM%SS')}"`: the id embeds the current
local time at second granularity. -/

/-- Character list of `now.strftime("%Y%m%d_%H%M%S")`. -/
def fmtId (d : DateTime) : List Char :=
  pad4 d.year ++ pad2 d.month ++ pad2 d.day ++
  '_' :: pad2 d.hour ++ pad2 d.minute ++ pad2 d.second

/-- Embedding of `generate_todo_id`: the timestamp-derived identifier. -/
def generate_todo_id (pre : String) (now : DateTime) : String :=
  pre ++ "_" ++ String.mk (fmtId now)

/-! ## `pathlib.Path` embedding

A `Path` value is represented by its normalized string rendering (the value
of `str(path)`), and `pathJoin` implements the `/` operator of
`PurePosixPath` on such strings: empty and `.` segments are dropped, and an
absolute right operand replaces the left operand entirely. -/

/-- Split a character list on `/` into raw segments. -/
def splitSegs : List Char → List Char → List String
  | [], cur => [String.mk cur.reverse]
  | '/' :: rest, cur => String.mk cur.reverse :: splitSegs rest []
  | c :: rest, cur => splitSegs rest (c :: cur)

/-- Whether a path string is absolute. -/
def isAbs (s : String) : Bool :=
  match s.data with
  | '/' :: _ => true
  | _ => false

/-- The normalized segment list of a path string, as `PurePosixPath`
parses it (empty and `.` segments dropped). -/
def pathSegs (s : String) : List String :=
  (splitSegs s.data []).filter fun seg => seg ≠ "" && seg ≠ "."

/-- Join path segments with `/`. -/
def joinSegs : List String → String
  | [] => ""
  | [s] => s
  | s :: rest => s ++ "/" ++ joinSegs rest

/-- Render a parsed path back to its string form (`str(path)`); the empty
relative path renders as `.`, like `PurePosixPath()`. -/
def renderPath (abs : Bool) (segs : List String) : String :=
  match segs with
  | [] => if abs then "/" else "."
  | _ => (if abs then "/" else "") ++ joinSegs segs

/-- Embedding of the `/` operator on paths (`base_dir / payload["folder"]`,
`self.root / filename`, `folder / "todo.json"`). -/
def pathJoin (base rel : String) : String :=
  if isAbs rel then renderPath true (pathSegs rel)
  else renderPath (isAbs base) (pathSegs base ++ pathSegs rel)

/-! ## The record model (src/todo/models/record.py)

`TodoRecord` extends `TodoMetadata` with `folder` and `data_file`; the
embedding uses the flattened field list of the Python dataclass. `folder`
holds `str(self.folder)` and `data_file` holds `str(self.data_file)` when
set. -/

/-- Embedding of the `TodoRecord` dataclass. -/
structure TodoRecord where
  id : String
  created_at : DateTime
  completed : Bool
  category : List String
  description : Option String
  folder : String
  data_file : Option String
  priority : Option String
  due_date : Option DateTime
deriving DecidableEq, Repr

/-- Embedding of the JSON object produced by `TodoRecord.to_json_dict` and
consumed by `TodoRecord.from_json_dict`. A `none` field models an absent
key (or JSON `null` where the code treats the two alike). -/
structure Payload where
  id : Option String
  created_at : Option String
  completed : Option Bool
  category : Option (List String)
  description : Option String
  priority : Option String
  due_date : Option String
  folder : Option String
  data_file : Option String
deriving DecidableEq, Repr

/-- Embedding of `TodoRecord.to_json_dict`: every key except `data_file` is
always written; `data_file` is written only when set (`if self.data_file:`).
Timestamps are rendered with `isoformat`. -/
def to_json_dict (r : TodoRecord) : Payload :=
  { id := some r.id
    created_at := some (isoformat r.created_at)
    completed := some r.completed
    category := some r.category
    description := r.description
    priority := r.priority
    due_date := r.due_date.map isoformat
    folder := some r.folder
    data_file := r.data_file }

/-- The `due_date` handling of `from_json_dict`: `payload.get("due_date")`
is falsy (absent or empty) → no due date; otherwise `fromisoformat` must
succeed or the decode raises. -/
def parseDueField : Option String → Option (Option DateTime)
  | none => some none
  | some s => if s = "" then some none else (fromisoformat s).map some

/-- Embedding of `TodoRecord.from_json_dict(payload, base_dir)`: requires
`id` and a parseable `created_at`; `folder` is recomputed as
`base_dir / payload.get("folder", "")` and `data_file` as
`folder / "todo.json"` exactly when the folder exists on disk (the
existence test is the explicit oracle `ex`). Missing `completed`,
`category`, `description`, `priority`, `due_date` take their defaults. -/
def from_json_dict (ex : String → Bool) (base_dir : String) (p : Payload) :
    Option TodoRecord :=
  match p.id, p.created_at with
  | some i, some ca =>
    match fromisoformat ca, parseDueField p.due_date with
    | some created, some due =>
      let folder := pathJoin base_dir (p.folder.getD "")
      some { id := i
             created_at := created
             completed := p.completed.getD false
             category := p.category.getD []
             description := p.description
             folder := folder
             data_file := if ex folder then some (pathJoin folder "todo.json")
                          else none
             priority := p.priority
             due_date := due }
    | _, _ => none
  | _, _ => none

/-- What one encode/decode cycle does to a record: all metadata fields are
kept, `folder` is re-rooted under `base_dir` and `data_file` is recomputed
from directory existence. -/
def reload (ex : String → Bool) (base_dir : String) (r : TodoRecord) :
    TodoRecord :=
  let folder := pathJoin base_dir r.folder
  { r with
    folder := folder
    data_file := if ex folder then some (pathJoin folder "todo.json")
                 else none }

/-- Erase the location fields, keeping the metadata fields. -/
def stripLoc (r : TodoRecord) : TodoRecord :=
  { r with folder := "", data_file := none }

/-- Validity of an optional due date. -/
def DueValid : Option DateTime → Prop
  | none => True
  | some d => d.valid

instance (o : Option DateTime) : Decidable (DueValid o) := by
  cases o with
  | none => exact isTrue trivial
  | some d => exact inferInstanceAs (Decidable d.valid)

/-- A well-formed record: its timestamps satisfy the `datetime` range
constraints (every record the Python code constructs satisfies this). -/
def ValidRec (r : TodoRecord) : Prop :=
  r.created_at.valid ∧ DueValid r.due_date

instance (r : TodoRecord) : Decidable (ValidRec r) := by
  unfold ValidRec; infer_instance

theorem decode_encode (ex : String → Bool) (base : String) (r : TodoRecord)
    (h : ValidRec r) :
    from_json_dict ex base (to_json_dict r) = some (reload ex base r) := by
  obtain ⟨hca, hdue⟩ := h
  cases hd : r.due_date with
  | none =>
    simp [from_json_dict, to_json_dict, reload, parseDueField, hd,
      fromisoformat_isoformat _ hca]
  | some d =>
    have hdv : d.valid := by rw [hd] at hdue; exact hdue
    simp [from_json_dict, to_json_dict, reload, parseDueField, hd,
      fromisoformat_isoformat _ hca, isoformat_ne_empty,
      fromisoformat_isoformat _ hdv]

theorem fromisoformat_valid {s : String} {d : DateTime}
    (h : fromisoformat s = some d) : d.valid :=
  parseISO_valid h

theorem parseDueField_valid {o : Option String} {due : Option DateTime}
    (h : parseDueField o = some due) : DueValid due := by
  cases o with
  | none =>
    simp [parseDueField] at h
    subst h
    trivial
  | some s =>
    simp only [parseDueField] at h
    split at h
    · simp at h
      subst h
      trivial
    · cases hf : fromisoformat s with
      | none => rw [hf] at h; cases h
      | some d => rw [hf] at h; cases h; exact fromisoformat_valid hf

theorem from_json_valid {ex : String → Bool} {base : String} {p : Payload}
    {r : TodoRecord} (h : from_json_dict ex base p = some r) : ValidRec r := by
  unfold from_json_dict at h
  split at h
  · split at h
    · rename_i created due hiso hdue
      cases h
      exact ⟨fromisoformat_valid hiso, parseDueField_valid hdue⟩
    · cases h
  · cases h

/-! ## Storage manager (src/src/storage.py)

The storage state is the decoded content of the JSON file: the list of
payload objects in the root array. Operations that Python lets raise
(decode errors on load) return `none`. `ex` is the directory-existence
oracle consulted by `from_json_dict`, `root` the storage root directory
(`TodoStorage.root`). -/

/-- The list comprehension in `load_todos`: decode every element, raising
(`none`) if any element fails to decode. -/
def decodeAll (ex : String → Bool) (root : String) :
    List Payload → Option (List TodoRecord)
  | [] => some []
  | p :: ps =>
    match from_json_dict ex root p, decodeAll ex root ps with
    | some r, some rs => some (r :: rs)
    | _, _ => none

/-- Embedding of `TodoStorage.load_todos`. -/
def load_todos (ex : String → Bool) (root : String) (F : List Payload) :
    Option (List TodoRecord) :=
  decodeAll ex root F

/-- Embedding of `TodoStorage.save_todos`: the file becomes the encoding of
every record. -/
def save_todos (todos : List TodoRecord) : List Payload :=
  todos.map to_json_dict

/-- Embedding of `TodoStorage.add_todo`: load, append, save. -/
def add_todo (ex : String → Bool) (root : String) (F : List Payload)
    (todo : TodoRecord) : Option (List Payload) :=
  (load_todos ex root F).map fun todos => save_todos (todos ++ [todo])

/-- `t.id == todo_id`: the id test of `remove_todo`, `get_todo` and
`mark_completed`. -/
def idMatch (todo_id : String) (t : TodoRecord) : Bool :=
  decide (t.id = todo_id)

/-- `t.id != todo_id`: the keep test of the `remove_todo` comprehension. -/
def notMatch (todo_id : String) (t : TodoRecord) : Bool :=
  decide (t.id ≠ todo_id)

/-- Embedding of `TodoStorage.remove_todo`: load, filter out matching ids,
save only if the length changed; returns whether a record was removed
together with the resulting file. -/
def remove_todo (ex : String → Bool) (root : String) (F : List Payload)
    (todo_id : String) : Option (Bool × List Payload) :=
  (load_todos ex root F).map fun todos =>
    if (todos.filter (notMatch todo_id)).length = todos.length then (false, F)
    else (true, save_todos (todos.filter (notMatch todo_id)))

/-- Embedding of `TodoStorage.get_todo`: load, linear search by id. -/
def get_todo (ex : String → Bool) (root : String) (F : List Payload)
    (todo_id : String) : Option (Option TodoRecord) :=
  (load_todos ex root F).map fun todos => todos.find? (idMatch todo_id)

/-- The loop of `mark_completed`: set `completed = True` on the first
record whose id matches, leaving the rest untouched. -/
def markFirst : List TodoRecord → String → List TodoRecord
  | [], _ => []
  | t :: ts, i =>
    if t.id = i then { t with completed := true } :: ts
    else t :: markFirst ts i

/-- Embedding of `TodoStorage.mark_completed`: load, set `completed` on the
first match and save; if no record matches, return `False` without
saving. -/
def mark_completed (ex : String → Bool) (root : String) (F : List Payload)
    (todo_id : String) : Option (Bool × List Payload) :=
  (load_todos ex root F).map fun todos =>
    if todos.any (idMatch todo_id) then
      (true, save_todos (markFirst todos todo_id))
    else (false, F)

theorem stripLoc_reload (ex : String → Bool) (base : String) (r : TodoRecord) :
    stripLoc (reload ex base r) = stripLoc r := rfl

theorem load_save (ex : String → Bool) (base : String) :
    ∀ recs : List TodoRecord, (∀ r ∈ recs, ValidRec r) →
      load_todos ex base (save_todos recs) = some (recs.map (reload ex base))
  | [], _ => rfl
  | r :: rs, h => by
    have hr : ValidRec r := h r (List.mem_cons_self r rs)
    have ih := load_save ex base rs fun x hx => h x (List.mem_cons_of_mem r hx)
    simp only [save_todos, load_todos, List.map_cons, decodeAll] at ih ⊢
    rw [decode_encode ex base r hr, ih]

theorem decodeAll_length {ex : String → Bool} {root : String} :
    ∀ {F : List Payload} {recs : List TodoRecord},
      decodeAll ex root F = some recs → recs.length = F.length
  | [], recs, h => by cases h; rfl
  | p :: ps, recs, h => by
    simp only [decodeAll] at h
    split at h
    · rename_i r rs hr hrs
      cases h
      simp [decodeAll_length hrs]
    · cases h

theorem decodeAll_valid {ex : String → Bool} {root : String} :
    ∀ {F : List Payload} {recs : List TodoRecord},
      decodeAll ex root F = some recs → ∀ r ∈ recs, ValidRec r
  | [], recs, h => by cases h; simp
  | p :: ps, recs, h => by
    simp only [decodeAll] at h
    split at h
    · rename_i r rs hr hrs
      cases h
      intro x hx
      rcases List.mem_cons.mp hx with rfl | hx2
      · exact from_json_valid hr
      · exact decodeAll_valid hrs x hx2
    · cases h

theorem map_stripLoc_reload (ex : String → Bool) (base : String)
    (recs : List TodoRecord) :
    (recs.map (reload ex base)).map stripLoc = recs.map stripLoc := by
  induction recs with
  | nil => rfl
  | cons r rs ih => simp [ih, stripLoc_reload]

/-! ## Concrete sample data used by counterexamples and witnesses -/

/-- A directory-existence oracle for a filesystem where no candidate
directory exists (the normal situation: `data/data` is never created). -/
def exFalse : String → Bool := fun _ => false

/-- A well-formed record exactly as `handle_add_task` would create it:
relative folder `data`, no data file. -/
def sampleRec : TodoRecord :=
  { id := "todo_20240601_120000"
    created_at := ⟨2024, 6, 1, 12, 0, 0, 0⟩
    completed := false
    category := ["work"]
    description := some "buy milk"
    folder := "data"
    data_file := none
    priority := some "High"
    due_date := some ⟨2024, 6, 10, 0, 0, 0, 0⟩ }

/-- C1: counterexample. The record `sampleRec` is valid, but decoding its
encoding (with the storage base directory `data` and no existing
directories, exactly the situation `TodoStorage` produces) yields a record
whose `folder` has been re-rooted to `data/data`; the round-trip is not the
identity, so the claim `decode(encode(r)) == r` with no field (including
`folder` and `data_file`) altered is false. -/
theorem C1_roundtrip_counterexample :
    ValidRec sampleRec ∧
    from_json_dict exFalse "data" (to_json_dict sampleRec) =
      some { sampleRec with folder := "data/data" } ∧
    ({ sampleRec with folder := "data/data" } : TodoRecord) ≠ sampleRec := by
  decide

/-- C1 (amended): for every valid record `r`, decoding the encoding
succeeds and returns `reload ex base r`: every field except `folder` and
`data_file` is preserved (witnessed by equality after erasing the two
location fields); `folder` becomes `base / r.folder` and `data_file` is
recomputed from directory existence. -/
theorem C1_roundtrip_amended (ex : String → Bool) (base : String)
    (r : TodoRecord) (h : ValidRec r) :
    from_json_dict ex base (to_json_dict r) = some (reload ex base r) ∧
    stripLoc (reload ex base r) = stripLoc r :=
  ⟨decode_encode ex base r h, rfl⟩

/-- C1: witness for the amended theorem at a concrete record. -/
theorem C1_roundtrip_witness :
    ValidRec sampleRec ∧
    (from_json_dict exFalse "data" (to_json_dict sampleRec) =
        some (reload exFalse "data" sampleRec) ∧
      stripLoc (reload exFalse "data" sampleRec) = stripLoc sampleRec) :=
  ⟨by decide, C1_roundtrip_amended exFalse "data" sampleRec (by decide)⟩

/-- C2: counterexample. Saving the one-record collection `[sampleRec]` and
loading it back yields a record with `folder` re-rooted to `data/data`, not
a sequence equal to the input, so the load-after-save round-trip claim is
false as stated. -/
theorem C2_load_save_counterexample :
    ValidRec sampleRec ∧
    load_todos exFalse "data" (save_todos [sampleRec]) =
      some [{ sampleRec with folder := "data/data" }] ∧
    ([{ sampleRec with folder := "data/data" }] : List TodoRecord) ≠
      [sampleRec] := by
  decide

/-- C2 (amended): for every collection of valid records, load after save
succeeds and returns the records in the same order and number, each equal
to its original except that `folder` is re-rooted under the storage root
and `data_file` is recomputed from directory existence. -/
theorem C2_load_save_amended (ex : String → Bool) (base : String)
    (recs : List TodoRecord) (h : ∀ r ∈ recs, ValidRec r) :
    load_todos ex base (save_todos recs) = some (recs.map (reload ex base)) ∧
    (recs.map (reload ex base)).map stripLoc = recs.map stripLoc ∧
    (recs.map (reload ex base)).length = recs.length :=
  ⟨load_save ex base recs h, map_stripLoc_reload ex base recs, by simp⟩

/-- C2: witness for the amended theorem at a concrete collection. -/
theorem C2_load_save_witness :
    (∀ r ∈ [sampleRec], ValidRec r) ∧
    (load_todos exFalse "data" (save_todos [sampleRec]) =
        some ([sampleRec].map (reload exFalse "data")) ∧
      ([sampleRec].map (reload exFalse "data")).map stripLoc =
        [sampleRec].map stripLoc ∧
      ([sampleRec].map (reload exFalse "data")).length =
        [sampleRec].length) :=
  ⟨by decide, C2_load_save_amended exFalse "data" [sampleRec] (by decide)⟩

/-! ## Sorting (src/todo/core/todo.py, `_sort_todo_list`)

`todos.sort(key=lambda x: ({"High": 1, "Med": 2, "Low": 3}.get(x.priority
or "", 4), x.due_date or datetime.max))` — Python `list.sort` is a stable
sort by the key tuple under lexicographic comparison. Any stable sort with
respect to the same total preorder computes the same list, so the
embedding uses `List.insertionSort` (which is stable) with the key order
as the relation. -/

/-- The priority rank: `{"High": 1, "Med": 2, "Low": 3}.get(p or "", 4)`.
A `None` or unknown priority (including the empty string) ranks 4. -/
def prioRank (p : Option String) : Nat :=
  match p with
  | some s =>
    if s = "High" then 1 else if s = "Med" then 2 else if s = "Low" then 3
    else 4
  | none => 4

/-- The due-date component of the sort key: `x.due_date or datetime.max`
(every `datetime` value is truthy, so only `None` falls back). -/
def dueKey (r : TodoRecord) : DateTime := r.due_date.getD dtMax

/-- Lexicographic comparison of `datetime` values, as Python compares
them. -/
def dtLE (a b : DateTime) : Prop :=
  a.year < b.year ∨ (a.year = b.year ∧
  (a.month < b.month ∨ (a.month = b.month ∧
  (a.day < b.day ∨ (a.day = b.day ∧
  (a.hour < b.hour ∨ (a.hour = b.hour ∧
  (a.minute < b.minute ∨ (a.minute = b.minute ∧
  (a.second < b.second ∨ (a.second = b.second ∧
  a.microsecond ≤ b.microsecond)))))))))))

instance (a b : DateTime) : Decidable (dtLE a b) := by
  unfold dtLE; infer_instance

theorem dtLE_refl (a : DateTime) : dtLE a a := by simp [dtLE]

theorem dtLE_trans {a b c : DateTime} (h1 : dtLE a b) (h2 : dtLE b c) :
    dtLE a c := by
  unfold dtLE at h1 h2 ⊢
  omega

theorem dtLE_total (a b : DateTime) : dtLE a b ∨ dtLE b a := by
  unfold dtLE
  omega

/-- The sort-key order used by `_sort_todo_list`: priority rank first,
then the due date (lexicographic tuple comparison, as Python compares the
key tuples). -/
def sortRel (x y : TodoRecord) : Prop :=
  prioRank x.priority < prioRank y.priority ∨
    (prioRank x.priority = prioRank y.priority ∧ dtLE (dueKey x) (dueKey y))

instance : DecidableRel sortRel := fun x y => by
  unfold sortRel; infer_instance

instance : IsTotal TodoRecord sortRel where
  total a b := by
    rcases Nat.lt_trichotomy (prioRank a.priority) (prioRank b.priority)
      with h | h | h
    · exact Or.inl (Or.inl h)
    · rcases dtLE_total (dueKey a) (dueKey b) with hd | hd
      · exact Or.inl (Or.inr ⟨h, hd⟩)
      · exact Or.inr (Or.inr ⟨h.symm, hd⟩)
    · exact Or.inr (Or.inl h)

instance : IsTrans TodoRecord sortRel where
  trans a b c hab hbc := by
    rcases hab with h1 | ⟨h1, hd1⟩ <;> rcases hbc with h2 | ⟨h2, hd2⟩
    · exact Or.inl (by omega)
    · exact Or.inl (by omega)
    · exact Or.inl (by omega)
    · exact Or.inr ⟨by omega, dtLE_trans hd1 hd2⟩

/-- Embedding of `_sort_todo_list`: empty (falsy) input returns `None`;
otherwise a stably sorted copy is returned. -/
def _sort_todo_list (todos : List TodoRecord) : Option (List TodoRecord) :=
  if todos = [] then none else some (List.insertionSort sortRel todos)

/-- The full sort key of a record. -/
def sKey (r : TodoRecord) : Nat × DateTime := (prioRank r.priority, dueKey r)

/-- Boolean test for records with a given sort key (used to state
stability: the sort preserves the relative order of equal-key records). -/
def keyEq (k : Nat × DateTime) (r : TodoRecord) : Bool := decide (sKey r = k)

theorem sortRel_of_sKey_eq {x y : TodoRecord} (h : sKey x = sKey y) :
    sortRel x y := by
  unfold sKey at h
  obtain ⟨h1, h2⟩ := Prod.mk.injEq .. ▸ h
  exact Or.inr ⟨h1, h2 ▸ dtLE_refl (dueKey x)⟩

theorem filter_orderedInsert_pos (k : Nat × DateTime) (x : TodoRecord)
    (hx : sKey x = k) :
    ∀ l : List TodoRecord,
      (l.orderedInsert sortRel x).filter (keyEq k) =
        x :: l.filter (keyEq k)
  | [] => by simp [List.orderedInsert, keyEq, hx]
  | y :: ys => by
    by_cases hxy : sortRel x y
    · simp [List.orderedInsert, hxy, keyEq, hx]
    · have hy : ¬(sKey y = k) := fun hk =>
        hxy (sortRel_of_sKey_eq (hx.trans hk.symm))
      simp [List.orderedInsert, hxy, keyEq, hy,
        filter_orderedInsert_pos k x hx ys, hx]

theorem filter_orderedInsert_neg (k : Nat × DateTime) (x : TodoRecord)
    (hx : ¬(sKey x = k)) :
    ∀ l : List TodoRecord,
      (l.orderedInsert sortRel x).filter (keyEq k) = l.filter (keyEq k)
  | [] => by simp [List.orderedInsert, keyEq, hx]
  | y :: ys => by
    by_cases hxy : sortRel x y
    · simp [List.orderedInsert, hxy, keyEq, hx]
    · by_cases hy : sKey y = k
      · simp [List.orderedInsert, hxy, keyEq, hy,
          filter_orderedInsert_neg k x hx ys]
      · simp [List.orderedInsert, hxy, keyEq, hy,
          filter_orderedInsert_neg k x hx ys]

theorem filter_insertionSort (k : Nat × DateTime) :
    ∀ l : List TodoRecord,
      (List.insertionSort sortRel l).filter (keyEq k) = l.filter (keyEq k)
  | [] => rfl
  | x :: xs => by
    by_cases hx : sKey x = k
    · rw [List.insertionSort, filter_orderedInsert_pos k x hx]
      simp [List.filter_cons, keyEq, hx, filter_insertionSort k xs]
    · rw [List.insertionSort, filter_orderedInsert_neg k x hx]
      simp [List.filter_cons, keyEq, hx, filter_insertionSort k xs]

/-- Record A of the spec example: priority Med, due 2024-06-01. -/
def recA : TodoRecord :=
  { id := "A", created_at := ⟨2024, 1, 1, 0, 0, 0, 0⟩, completed := false
    category := [], description := some "A", folder := "data"
    data_file := none, priority := some "Med"
    due_date := some ⟨2024, 6, 1, 0, 0, 0, 0⟩ }

/-- Record B of the spec example: priority High, due 2024-06-10. -/
def recB : TodoRecord :=
  { recA with
    id := "B"
    description := some "B"
    priority := some "High"
    due_date := some ⟨2024, 6, 10, 0, 0, 0, 0⟩ }

/-- Record C of the spec example: priority Low, no due date. -/
def recC : TodoRecord :=
  { recA with
    id := "C"
    description := some "C"
    priority := some "Low"
    due_date := none }

/-- Record D of the spec example: no priority, due 2024-01-01. -/
def recD : TodoRecord :=
  { recA with
    id := "D"
    description := some "D"
    priority := none
    due_date := some ⟨2024, 1, 1, 0, 0, 0, 0⟩ }

/-- C3: `_sort_todo_list` on a nonempty list returns a permutation of the
input, sorted by priority rank (High=1, Med=2, Low=3, unset=4) and then by
due date with an unset due date treated as `datetime.max`, and stable:
records with equal sort keys keep their original relative order (the
filter by any fixed key is unchanged). On the spec example the result is
[B, A, C, D]. -/
theorem C3_sort_stable (todos : List TodoRecord) (hne : todos ≠ []) :
    ∃ l, _sort_todo_list todos = some l ∧
      List.Sorted sortRel l ∧ List.Perm l todos ∧
      (∀ k, l.filter (keyEq k) = todos.filter (keyEq k)) ∧
      _sort_todo_list [recA, recB, recC, recD] =
        some [recB, recA, recC, recD] := by
  refine ⟨List.insertionSort sortRel todos, ?_, ?_, ?_, ?_, ?_⟩
  · simp [_sort_todo_list, hne]
  · exact List.sorted_insertionSort sortRel todos
  · exact List.perm_insertionSort sortRel todos
  · exact fun k => filter_insertionSort k todos
  · decide

/-- C3: witness for the sort theorem at the spec's concrete example. -/
theorem C3_sort_stable_witness :
    ([recA, recB, recC, recD] ≠ ([] : List TodoRecord)) ∧
    (∃ l, _sort_todo_list [recA, recB, recC, recD] = some l ∧
      List.Sorted sortRel l ∧ List.Perm l [recA, recB, recC, recD] ∧
      (∀ k, l.filter (keyEq k) = [recA, recB, recC, recD].filter (keyEq k)) ∧
      _sort_todo_list [recA, recB, recC, recD] =
        some [recB, recA, recC, recD]) :=
  ⟨by decide, C3_sort_stable [recA, recB, recC, recD] (by decide)⟩

/-! ## Filtering (src/todo/core/todo.py, `_filtered_list`)

The loop skips a record on the first matching `continue` condition; the
category and priority filters are guarded by Python truthiness, so a
`None` or empty-string filter value imposes no constraint. -/

/-- The filter-relevant CLI options consumed by `_filtered_list`. -/
structure FilterArgs where
  completed : Bool
  pending : Bool
  category : Option String
  priority : Option String
deriving DecidableEq, Repr

/-- `if category_filter and category_filter not in todo.category`. -/
def catSkip (a : FilterArgs) (t : TodoRecord) : Bool :=
  match a.category with
  | none => false
  | some c => decide (c ≠ "") && decide (c ∉ t.category)

/-- `if priority_filter and todo.priority != priority_filter`. -/
def prioSkip (a : FilterArgs) (t : TodoRecord) : Bool :=
  match a.priority with
  | none => false
  | some p => decide (p ≠ "") && decide (t.priority ≠ some p)

/-- The filtering loop of `_filtered_list`. -/
def filterLoop (a : FilterArgs) : List TodoRecord → List TodoRecord
  | [] => []
  | t :: ts =>
    if catSkip a t then filterLoop a ts
    else if prioSkip a t then filterLoop a ts
    else if a.completed && !t.completed then filterLoop a ts
    else if a.pending && t.completed then filterLoop a ts
    else t :: filterLoop a ts

/-- Embedding of `_filtered_list`: an empty collection logs and returns
`None`; otherwise the filtered list is returned (possibly empty). -/
def _filtered_list (a : FilterArgs) (todos : List TodoRecord) :
    Option (List TodoRecord) :=
  if todos = [] then none else some (filterLoop a todos)

/-- The declarative keep predicate the code implements (the amended
claim): a record is kept iff the category filter is absent or empty or a
member of the record's categories, the priority filter is absent or empty
or equal to the record's priority, the completed filter is off or the
record is completed, and the pending filter is off or the record is
pending. -/
def keepSpec (a : FilterArgs) (t : TodoRecord) : Prop :=
  (match a.category with
   | none => True
   | some c => c = "" ∨ c ∈ t.category) ∧
  (match a.priority with
   | none => True
   | some p => p = "" ∨ t.priority = some p) ∧
  (a.completed = true → t.completed = true) ∧
  (a.pending = true → t.completed = false)

instance (a : FilterArgs) (t : TodoRecord) : Decidable (keepSpec a t) := by
  unfold keepSpec
  cases a.category <;> cases a.priority <;> dsimp only <;> infer_instance

/-- The keep predicate exactly as the claim words it: the category filter
is absent or its value is a member; the priority filter is absent or
equal; the completed filter is absent or the record is completed; the
pending filter is absent or the record is pending. -/
def keepClaim (a : FilterArgs) (t : TodoRecord) : Prop :=
  (match a.category with
   | none => True
   | some c => c ∈ t.category) ∧
  (match a.priority with
   | none => True
   | some p => t.priority = some p) ∧
  (a.completed = true → t.completed = true) ∧
  (a.pending = true → t.completed = false)

instance (a : FilterArgs) (t : TodoRecord) : Decidable (keepClaim a t) := by
  unfold keepClaim
  cases a.category <;> cases a.priority <;> dsimp only <;> infer_instance

theorem catSkip_not_keep {a : FilterArgs} {t : TodoRecord}
    (h : catSkip a t = true) : ¬keepSpec a t := by
  unfold catSkip at h
  unfold keepSpec
  rcases hc : a.category with _ | c
  · rw [hc] at h; cases h
  · rw [hc] at h
    simp only [Bool.and_eq_true, decide_eq_true_eq] at h
    simp only [hc]
    rintro ⟨h1, -, -, -⟩
    rcases h1 with h1 | h1
    · exact h.1 h1
    · exact h.2 h1

theorem prioSkip_not_keep {a : FilterArgs} {t : TodoRecord}
    (h : prioSkip a t = true) : ¬keepSpec a t := by
  unfold prioSkip at h
  unfold keepSpec
  rcases hp : a.priority with _ | p
  · rw [hp] at h; cases h
  · rw [hp] at h
    simp only [Bool.and_eq_true, decide_eq_true_eq] at h
    simp only [hp]
    rintro ⟨-, h2, -, -⟩
    rcases h2 with h2 | h2
    · exact h.1 h2
    · exact h.2 h2

theorem completedSkip_not_keep {a : FilterArgs} {t : TodoRecord}
    (h : (a.completed && !t.completed) = true) : ¬keepSpec a t := by
  simp only [Bool.and_eq_true, Bool.not_eq_true'] at h
  rintro ⟨-, -, h3, -⟩
  rw [h3 h.1] at h
  cases h.2

theorem pendingSkip_not_keep {a : FilterArgs} {t : TodoRecord}
    (h : (a.pending && t.completed) = true) : ¬keepSpec a t := by
  simp only [Bool.and_eq_true] at h
  rintro ⟨-, -, -, h4⟩
  rw [h4 h.1] at h
  cases h.2

theorem keep_of_not_skips {a : FilterArgs} {t : TodoRecord}
    (h1 : ¬catSkip a t = true) (h2 : ¬prioSkip a t = true)
    (h3 : ¬(a.completed && !t.completed) = true)
    (h4 : ¬(a.pending && t.completed) = true) : keepSpec a t := by
  unfold catSkip at h1
  unfold prioSkip at h2
  simp only [Bool.and_eq_true, Bool.not_eq_true', not_and] at h3 h4
  unfold keepSpec
  refine ⟨?_, ?_, ?_, ?_⟩
  · rcases hc : a.category with _ | c
    · trivial
    · rw [hc] at h1
      simp only [Bool.and_eq_true, decide_eq_true_eq, not_and] at h1
      by_cases hce : c = ""
      · exact Or.inl hce
      · exact Or.inr (not_not.mp (h1 hce))
  · rcases hp : a.priority with _ | p
    · trivial
    · rw [hp] at h2
      simp only [Bool.and_eq_true, decide_eq_true_eq, not_and] at h2
      by_cases hpe : p = ""
      · exact Or.inl hpe
      · exact Or.inr (not_not.mp (h2 hpe))
  · intro hcom
    rcases hb : t.completed with _ | _
    · exact absurd hb (h3 hcom)
    · rfl
  · intro hpen
    rcases hb : t.completed with _ | _
    · rfl
    · exact absurd hb (fun hc2 => h4 hpen hc2)

theorem filterLoop_eq (a : FilterArgs) :
    ∀ l : List TodoRecord,
      filterLoop a l = l.filter fun t => decide (keepSpec a t)
  | [] => rfl
  | t :: ts => by
    have IH := filterLoop_eq a ts
    by_cases h1 : catSkip a t = true
    · simp [filterLoop, List.filter_cons, IH, h1, catSkip_not_keep h1]
    · by_cases h2 : prioSkip a t = true
      · simp [filterLoop, List.filter_cons, IH, h1, h2, prioSkip_not_keep h2]
      · by_cases h3 : (a.completed && !t.completed) = true
        · simp [filterLoop, List.filter_cons, IH, h1, h2, h3,
            completedSkip_not_keep h3]
        · by_cases h4 : (a.pending && t.completed) = true
          · simp [filterLoop, List.filter_cons, IH, h1, h2, h3, h4,
              pendingSkip_not_keep h4]
          · simp [filterLoop, List.filter_cons, IH, h1, h2, h3, h4,
              keep_of_not_skips h1 h2 h3 h4]

/-- A task with category set `{"work"}` (spec example task 1). -/
def wRec1 : TodoRecord :=
  { recA with id := "w1", category := ["work"] }

/-- A task with category set `{"home"}` (spec example task 2). -/
def wRec2 : TodoRecord :=
  { recA with id := "w2", category := ["home"] }

/-- A task with empty category set (spec example task 3). -/
def wRec3 : TodoRecord :=
  { recA with id := "w3", category := [] }

/-- The filter options for `--category work` alone. -/
def workFilter : FilterArgs :=
  { completed := false, pending := false, category := some "work"
    priority := none }

/-- The filter options for an empty-string category value (`-C ""`). -/
def emptyCatFilter : FilterArgs :=
  { completed := false, pending := false, category := some ""
    priority := none }

/-- C4: counterexample. With the category filter set to the empty string
(reachable from the CLI as `-C ""`), `_filtered_list` keeps a record whose
category sequence does not contain the filter value, because the code
guards the filter by Python truthiness; the claim as stated requires the
record to be dropped whenever the filter is present and its value is not a
member. -/
theorem C4_filter_counterexample :
    _filtered_list emptyCatFilter [wRec1] = some [wRec1] ∧
    ¬keepClaim emptyCatFilter wRec1 := by
  decide

/-- C4 (amended): for every nonempty record list and every combination of
the four filter options, `_filtered_list` keeps exactly the records
satisfying `keepSpec`: each filter imposes its constraint only when it is
present and (for the category and priority filters) non-empty, matching
Python truthiness. On the spec example (categories {"work"}, {"home"}, {}
and filter category="work") only the first task is returned. -/
theorem C4_filter_amended (a : FilterArgs) (todos : List TodoRecord)
    (hne : todos ≠ []) :
    _filtered_list a todos =
      some (todos.filter fun t => decide (keepSpec a t)) ∧
    _filtered_list workFilter [wRec1, wRec2, wRec3] = some [wRec1] := by
  constructor
  · simp [_filtered_list, hne, filterLoop_eq]
  · decide

/-- C4: witness for the amended filter theorem at the spec's example. -/
theorem C4_filter_witness :
    ([wRec1, wRec2, wRec3] ≠ ([] : List TodoRecord)) ∧
    (_filtered_list workFilter [wRec1, wRec2, wRec3] =
        some ([wRec1, wRec2, wRec3].filter fun t =>
          decide (keepSpec workFilter t)) ∧
      _filtered_list workFilter [wRec1, wRec2, wRec3] = some [wRec1]) :=
  ⟨by decide, C4_filter_amended workFilter [wRec1, wRec2, wRec3] (by decide)⟩

/-! ## Behaviour of mark_completed / remove_todo / get_todo on the file -/

/-- Erase the completed flag (used to state that `mark_completed` changes
nothing else). -/
def stripCompleted (r : TodoRecord) : TodoRecord := { r with completed := false }

theorem markFirst_map_strip :
    ∀ (l : List TodoRecord) (i : String),
      (markFirst l i).map stripCompleted = l.map stripCompleted
  | [], _ => rfl
  | t :: ts, i => by
    by_cases h : t.id = i
    · simp [markFirst, h, stripCompleted]
    · simp [markFirst, h, markFirst_map_strip ts i]

theorem markFirst_map_completed :
    ∀ (l : List TodoRecord) (i : String),
      (markFirst l i).map (fun t => t.completed) =
        (l.map fun t => t.completed).set (l.findIdx (idMatch i)) true
  | [], _ => rfl
  | t :: ts, i => by
    by_cases h : t.id = i
    · simp [markFirst, h, List.findIdx_cons, idMatch]
    · simp [markFirst, h, List.findIdx_cons, idMatch,
        markFirst_map_completed ts i]

theorem markFirst_map_id :
    ∀ (l : List TodoRecord) (i : String),
      (markFirst l i).map (fun t => t.id) = l.map fun t => t.id
  | [], _ => rfl
  | t :: ts, i => by
    by_cases h : t.id = i
    · simp [markFirst, h]
    · simp [markFirst, h, markFirst_map_id ts i]

theorem markFirst_valid {l : List TodoRecord} {i : String}
    (h : ∀ r ∈ l, ValidRec r) : ∀ r ∈ markFirst l i, ValidRec r := by
  induction l with
  | nil => simp [markFirst]
  | cons t ts ih =>
    intro r hr
    by_cases ht : t.id = i
    · simp only [markFirst, ht, if_true, List.mem_cons] at hr
      rcases hr with rfl | hr
      · exact h t (List.mem_cons_self t ts)
      · exact h r (List.mem_cons_of_mem t hr)
    · simp only [markFirst, ht, if_false, List.mem_cons] at hr
      rcases hr with rfl | hr
      · exact h r (List.mem_cons_self r ts)
      · exact ih (fun x hx => h x (List.mem_cons_of_mem t hx)) r hr

theorem any_id_iff (todos : List TodoRecord) (i : String) :
    todos.any (idMatch i) = true ↔ ∃ t ∈ todos, t.id = i := by
  simp [List.any_eq_true, idMatch]

theorem filter_length_decompose :
    ∀ (l : List TodoRecord) (i : String),
      (l.filter (notMatch i)).length + l.countP (idMatch i) = l.length
  | [], _ => rfl
  | t :: ts, i => by
    have IH := filter_length_decompose ts i
    by_cases h : t.id = i
    · rw [List.filter_cons, List.countP_cons]
      have h1 : notMatch i t = false := by simp [notMatch, h]
      have h2 : idMatch i t = true := by simp [idMatch, h]
      rw [h1, h2]
      simp only [Bool.false_eq_true, if_false, if_true, List.length_cons]
      omega
    · rw [List.filter_cons, List.countP_cons]
      have h1 : notMatch i t = true := by simp [notMatch, h]
      have h2 : idMatch i t = false := by simp [idMatch, h]
      rw [h1, h2]
      simp only [Bool.false_eq_true, if_false, if_true, List.length_cons]
      omega

theorem countP_le_one_of_nodup :
    ∀ (l : List TodoRecord), ((l.map fun t => t.id).Nodup) → ∀ i : String,
      l.countP (idMatch i) ≤ 1
  | [], _, _ => by simp
  | t :: ts, hnd, i => by
    simp only [List.map_cons, List.nodup_cons, List.mem_map] at hnd
    have IH := countP_le_one_of_nodup ts hnd.2 i
    by_cases h : t.id = i
    · have hzero : ts.countP (idMatch i) = 0 := by
        rw [List.countP_eq_zero]
        intro x hx
        simp only [idMatch, decide_eq_true_eq]
        intro hxi
        exact hnd.1 ⟨x, hx, by rw [hxi, h]⟩
      rw [List.countP_cons]
      have h2 : idMatch i t = true := by simp [idMatch, h]
      rw [h2, hzero]
      simp
    · rw [List.countP_cons]
      have h2 : idMatch i t = false := by simp [idMatch, h]
      rw [h2]
      simp only [Bool.false_eq_true, if_false, Nat.add_zero]
      exact IH

theorem countP_pos_of_mem {todos : List TodoRecord} {i : String}
    (hex : ∃ t ∈ todos, t.id = i) :
    0 < todos.countP (idMatch i) := by
  rw [List.countP_pos_iff]
  obtain ⟨t, ht, hti⟩ := hex
  exact ⟨t, ht, by simp [idMatch, hti]⟩

theorem countP_zero_of_not_mem {todos : List TodoRecord} {i : String}
    (hnex : ¬∃ t ∈ todos, t.id = i) :
    todos.countP (idMatch i) = 0 := by
  rw [List.countP_eq_zero]
  intro x hx
  simp only [idMatch, decide_eq_true_eq]
  exact fun hxi => hnex ⟨x, hx, hxi⟩

theorem remove_todo_found {ex : String → Bool} {root : String}
    {F : List Payload} {todos : List TodoRecord} {i : String}
    (hload : load_todos ex root F = some todos)
    (hex : ∃ t ∈ todos, t.id = i) :
    remove_todo ex root F i =
      some (true, save_todos (todos.filter (notMatch i))) := by
  have hpos := countP_pos_of_mem hex
  have hdec := filter_length_decompose todos i
  unfold remove_todo
  rw [hload, Option.map_some']
  rw [if_neg (by omega)]

theorem remove_todo_not_found {ex : String → Bool} {root : String}
    {F : List Payload} {todos : List TodoRecord} {i : String}
    (hload : load_todos ex root F = some todos)
    (hnex : ¬∃ t ∈ todos, t.id = i) :
    remove_todo ex root F i = some (false, F) := by
  have hzero := countP_zero_of_not_mem hnex
  have hdec := filter_length_decompose todos i
  unfold remove_todo
  rw [hload, Option.map_some']
  rw [if_pos (by omega)]

theorem mark_completed_found {ex : String → Bool} {root : String}
    {F : List Payload} {todos : List TodoRecord} {i : String}
    (hload : load_todos ex root F = some todos)
    (hex : ∃ t ∈ todos, t.id = i) :
    mark_completed ex root F i =
      some (true, save_todos (markFirst todos i)) := by
  unfold mark_completed
  rw [hload, Option.map_some']
  rw [if_pos ((any_id_iff todos i).mpr hex)]

theorem mark_completed_not_found {ex : String → Bool} {root : String}
    {F : List Payload} {todos : List TodoRecord} {i : String}
    (hload : load_todos ex root F = some todos)
    (hnex : ¬∃ t ∈ todos, t.id = i) :
    mark_completed ex root F i = some (false, F) := by
  unfold mark_completed
  rw [hload, Option.map_some']
  rw [if_neg (fun hb => hnex ((any_id_iff todos i).mp hb))]

theorem get_todo_eq {ex : String → Bool} {root : String}
    {F : List Payload} {todos : List TodoRecord}
    (hload : load_todos ex root F = some todos) (i : String) :
    get_todo ex root F i = some (todos.find? (idMatch i)) := by
  unfold get_todo
  rw [hload]
  rfl

/-! ## Concrete stored files for claims C5, C6, C10 -/

/-- A stored payload with id `a`, as `save_todos` writes it. -/
def payloadA : Payload :=
  { id := some "a"
    created_at := some "2024-06-01T12:00:00"
    completed := some false
    category := some []
    description := none
    priority := none
    due_date := none
    folder := some "data"
    data_file := none }

/-- A stored payload with id `b`. -/
def payloadB : Payload := { payloadA with id := some "b" }

/-- A second stored payload that also has id `a` (a duplicate id, as two
adds within the same second produce). -/
def payloadA2 : Payload := { payloadA with description := some "again" }

/-- The record `payloadA` decodes to under root `data` (folder re-rooted
to `data/data`). -/
def decA : TodoRecord :=
  { id := "a"
    created_at := ⟨2024, 6, 1, 12, 0, 0, 0⟩
    completed := false
    category := []
    description := none
    folder := "data/data"
    data_file := none
    priority := none
    due_date := none }

/-- The record `payloadB` decodes to. -/
def decB : TodoRecord := { decA with id := "b" }

/-- The record `payloadA2` decodes to. -/
def decA2 : TodoRecord := { decA with description := some "again" }

/-- C5: counterexample. Marking the existing id `a` in the two-record
file `[payloadA, payloadB]` returns true and sets the completed flag, but
the untouched record `b` is rewritten in the file with its `folder` field
re-rooted (`data` becomes `data/data`), so the claim that every other
record in the file is left unchanged is false. -/
theorem C5_mark_counterexample :
    mark_completed exFalse "data" [payloadA, payloadB] "a" =
      some (true,
        [{ payloadA with completed := some true, folder := some "data/data" },
         { payloadB with folder := some "data/data" }]) ∧
    ({ payloadB with folder := some "data/data" } : Payload) ≠ payloadB := by
  decide

/-- C5 (amended): when the file loads as `todos`, marking an existing id
returns true and saves `markFirst todos i`, which equals `todos` after
erasing the completed flags (no other record field is changed in memory;
the saved file re-encodes every record, re-rooting folders as C1/C2
describe) and whose completed flags are the original ones with the first
matching position set to true; on a non-existing id it returns false and
the stored file is byte-for-byte unchanged. -/
theorem C5_mark_amended (ex : String → Bool) (root : String)
    (F : List Payload) (todos : List TodoRecord) (i : String)
    (hload : load_todos ex root F = some todos) :
    ((∃ t ∈ todos, t.id = i) →
      mark_completed ex root F i =
        some (true, save_todos (markFirst todos i)) ∧
      (markFirst todos i).map stripCompleted = todos.map stripCompleted ∧
      (markFirst todos i).map (fun t => t.completed) =
        (todos.map fun t => t.completed).set (todos.findIdx (idMatch i))
          true) ∧
    ((¬∃ t ∈ todos, t.id = i) →
      mark_completed ex root F i = some (false, F)) := by
  constructor
  · intro hex
    exact ⟨mark_completed_found hload hex, markFirst_map_strip todos i,
      markFirst_map_completed todos i⟩
  · exact fun hnex => mark_completed_not_found hload hnex

/-- C5: witness for the amended theorem at a concrete two-record file. -/
theorem C5_mark_witness :
    load_todos exFalse "data" [payloadA, payloadB] = some [decA, decB] ∧
    (((∃ t ∈ [decA, decB], t.id = "a") →
      mark_completed exFalse "data" [payloadA, payloadB] "a" =
        some (true, save_todos (markFirst [decA, decB] "a")) ∧
      (markFirst [decA, decB] "a").map stripCompleted =
        [decA, decB].map stripCompleted ∧
      (markFirst [decA, decB] "a").map (fun t => t.completed) =
        ([decA, decB].map fun t => t.completed).set
          ([decA, decB].findIdx (idMatch "a")) true) ∧
    ((¬∃ t ∈ [decA, decB], t.id = "a") →
      mark_completed exFalse "data" [payloadA, payloadB] "a" =
        some (false, [payloadA, payloadB]))) :=
  ⟨by decide,
    C5_mark_amended exFalse "data" [payloadA, payloadB] [decA, decB] "a"
      (by decide)⟩

/-- C6: counterexample. With two stored records sharing id `a` (which the
code never prevents: two adds in the same second generate the same id),
`remove_todo "a"` removes both, so the stored count decreases by two, not
exactly one as the claim states for every stored collection. -/
theorem C6_remove_counterexample :
    remove_todo exFalse "data" [payloadA, payloadA2] "a" = some (true, []) ∧
    ([] : List Payload).length ≠ [payloadA, payloadA2].length - 1 := by
  decide

/-- C6 (amended): for every stored collection whose decoded ids are
pairwise distinct, `remove_todo` on an existing id returns true, the
stored count decreases by exactly one, and a subsequent `get_todo` of that
id on the new file returns absent; on a non-existing id it returns false
and the stored file is unchanged (no save is performed). -/
theorem C6_remove_amended (ex : String → Bool) (root : String)
    (F : List Payload) (todos : List TodoRecord) (i : String)
    (hload : load_todos ex root F = some todos)
    (hnd : (todos.map fun t => t.id).Nodup) :
    ((∃ t ∈ todos, t.id = i) →
      remove_todo ex root F i =
        some (true, save_todos (todos.filter (notMatch i))) ∧
      (save_todos (todos.filter (notMatch i))).length + 1 = F.length ∧
      get_todo ex root (save_todos (todos.filter (notMatch i))) i =
        some none) ∧
    ((¬∃ t ∈ todos, t.id = i) →
      remove_todo ex root F i = some (false, F)) := by
  constructor
  · intro hex
    have hpos := countP_pos_of_mem hex
    have hle := countP_le_one_of_nodup todos hnd i
    have hdec := filter_length_decompose todos i
    have hlen : todos.length = F.length := decodeAll_length hload
    refine ⟨remove_todo_found hload hex, ?_, ?_⟩
    · simp only [save_todos, List.length_map]
      omega
    · have hvalid : ∀ r ∈ todos.filter (notMatch i), ValidRec r := fun r hr =>
        decodeAll_valid hload r (List.mem_of_mem_filter hr)
      have hload2 := load_save ex root (todos.filter (notMatch i)) hvalid
      rw [get_todo_eq hload2 i]
      have hnone :
          ((todos.filter (notMatch i)).map (reload ex root)).find?
            (idMatch i) = none := by
        rw [List.find?_eq_none]
        intro x hx
        obtain ⟨y, hy, rfl⟩ := List.mem_map.mp hx
        have hyne : y.id ≠ i := by
          have hmem := (List.mem_filter.mp hy).2
          simpa [notMatch] using hmem
        simp [idMatch, reload, hyne]
      rw [hnone]
  · exact fun hnex => remove_todo_not_found hload hnex

/-- C6: witness for the amended theorem at a concrete two-record file with
distinct ids. -/
theorem C6_remove_witness :
    (load_todos exFalse "data" [payloadA, payloadB] = some [decA, decB] ∧
      ([decA, decB].map fun t => t.id).Nodup) ∧
    (((∃ t ∈ [decA, decB], t.id = "a") →
      remove_todo exFalse "data" [payloadA, payloadB] "a" =
        some (true, save_todos ([decA, decB].filter (notMatch "a"))) ∧
      (save_todos ([decA, decB].filter (notMatch "a"))).length + 1 =
        [payloadA, payloadB].length ∧
      get_todo exFalse "data"
        (save_todos ([decA, decB].filter (notMatch "a"))) "a" =
        some none) ∧
    ((¬∃ t ∈ [decA, decB], t.id = "a") →
      remove_todo exFalse "data" [payloadA, payloadB] "a" =
        some (false, [payloadA, payloadB]))) :=
  ⟨⟨by decide, by decide⟩,
    C6_remove_amended exFalse "data" [payloadA, payloadB] [decA, decB] "a"
      (by decide) (by decide)⟩

/-- C10: with duplicate ids in the stored collection, `remove_todo`
deletes every record bearing the id (the count decreases by the full
duplicate count, at least two), `get_todo` returns the first matching
record in stored order (`find?`), and `mark_completed` sets the completed
flag on only the first matching record, leaving all other fields and all
other completed flags unchanged. -/
theorem C10_duplicate_semantics (ex : String → Bool) (root : String)
    (F : List Payload) (todos : List TodoRecord) (i : String)
    (hload : load_todos ex root F = some todos)
    (hdup : 2 ≤ todos.countP (idMatch i)) :
    remove_todo ex root F i =
      some (true, save_todos (todos.filter (notMatch i))) ∧
    (save_todos (todos.filter (notMatch i))).length +
      todos.countP (idMatch i) = F.length ∧
    2 ≤ F.length - (save_todos (todos.filter (notMatch i))).length ∧
    get_todo ex root F i = some (todos.find? (idMatch i)) ∧
    mark_completed ex root F i =
      some (true, save_todos (markFirst todos i)) ∧
    (markFirst todos i).map stripCompleted = todos.map stripCompleted ∧
    (markFirst todos i).map (fun t => t.completed) =
      (todos.map fun t => t.completed).set (todos.findIdx (idMatch i))
        true := by
  have hex : ∃ t ∈ todos, t.id = i := by
    have hpos : 0 < todos.countP (idMatch i) := by omega
    rw [List.countP_pos_iff] at hpos
    obtain ⟨t, ht, hti⟩ := hpos
    exact ⟨t, ht, by simpa [idMatch] using hti⟩
  have hdec := filter_length_decompose todos i
  have hlen : todos.length = F.length := decodeAll_length hload
  refine ⟨remove_todo_found hload hex, ?_, ?_, get_todo_eq hload i,
    mark_completed_found hload hex, markFirst_map_strip todos i,
    markFirst_map_completed todos i⟩
  · simp only [save_todos, List.length_map]
    omega
  · simp only [save_todos, List.length_map]
    omega

/-- C10: witness at a concrete file containing two records with id `a`. -/
theorem C10_duplicate_witness :
    (load_todos exFalse "data" [payloadA, payloadA2] = some [decA, decA2] ∧
      2 ≤ [decA, decA2].countP (idMatch "a")) ∧
    (remove_todo exFalse "data" [payloadA, payloadA2] "a" =
      some (true, save_todos ([decA, decA2].filter (notMatch "a"))) ∧
    (save_todos ([decA, decA2].filter (notMatch "a"))).length +
      [decA, decA2].countP (idMatch "a") = [payloadA, payloadA2].length ∧
    2 ≤ [payloadA, payloadA2].length -
      (save_todos ([decA, decA2].filter (notMatch "a"))).length ∧
    get_todo exFalse "data" [payloadA, payloadA2] "a" =
      some ([decA, decA2].find? (idMatch "a")) ∧
    mark_completed exFalse "data" [payloadA, payloadA2] "a" =
      some (true, save_todos (markFirst [decA, decA2] "a")) ∧
    (markFirst [decA, decA2] "a").map stripCompleted =
      [decA, decA2].map stripCompleted ∧
    (markFirst [decA, decA2] "a").map (fun t => t.completed) =
      ([decA, decA2].map fun t => t.completed).set
        ([decA, decA2].findIdx (idMatch "a")) true) :=
  ⟨⟨by decide, by decide⟩,
    C10_duplicate_semantics exFalse "data" [payloadA, payloadA2]
      [decA, decA2] "a" (by decide) (by decide)⟩

/-! ## Adding a task (src/todo/core/todo.py, `handle_add_task`)

`handle_add_task` parses `args.due` with `strptime(args.due, "%Y-%m-%d")`
inside a try/except: a `ValueError` only logs the warning and leaves
`due_date = None`. The new record is then built and appended via
`storage.add_todo`. The generator and `datetime.now()` are called at two
(possibly different) instants `tid` and `tnow`. -/

/-- The add-relevant CLI options consumed by `handle_add_task`. -/
structure AddArgs where
  add : String
  category : Option String
  priority : Option String
  due : Option String
deriving DecidableEq, Repr

/-- The record `handle_add_task` constructs: generated id, creation time,
not completed, singleton or empty category (truthiness guard), the
description text, folder `data`, and the parsed due date or `None`. -/
def mkTodo (tid tnow : DateTime) (a : AddArgs) : TodoRecord :=
  { id := generate_todo_id "todo" tid
    created_at := tnow
    completed := false
    category := match a.category with
      | none => []
      | some c => if c = "" then [] else [c]
    description := some a.add
    folder := "data"
    data_file := none
    priority := a.priority
    due_date := match a.due with
      | none => none
      | some s => if s = "" then none else strptimeDate s }

/-- Whether the invalid-due-date warning is logged: a truthy `args.due`
that `strptime` rejects. -/
def dueWarn (a : AddArgs) : Bool :=
  match a.due with
  | none => false
  | some s => if s = "" then false else (strptimeDate s).isNone

/-- Embedding of `handle_add_task`: returns the warning flag, the created
record, and the file after `add_todo` (load, append, save). -/
def handle_add_task (ex : String → Bool) (root : String)
    (tid tnow : DateTime) (a : AddArgs) (F : List Payload) :
    Option (Bool × TodoRecord × List Payload) :=
  (load_todos ex root F).map fun todos =>
    (dueWarn a, mkTodo tid tnow a, save_todos (todos ++ [mkTodo tid tnow a]))

/-- C8: when the due-date text does not parse as `YYYY-MM-DD`,
`handle_add_task` logs the warning (`dueWarn = true`), does not abort, and
creates and persists the task with no due date: the stored file gains
exactly one record, the encoding of the new record whose `due_date` is
absent. -/
theorem C8_invalid_due_recovered (ex : String → Bool) (root : String)
    (tid tnow : DateTime) (a : AddArgs) (F : List Payload)
    (todos : List TodoRecord) (s : String)
    (hload : load_todos ex root F = some todos)
    (hdue : a.due = some s) (hne : s ≠ "") (hbad : strptimeDate s = none) :
    handle_add_task ex root tid tnow a F =
      some (true, mkTodo tid tnow a,
        save_todos (todos ++ [mkTodo tid tnow a])) ∧
    (mkTodo tid tnow a).due_date = none ∧
    (save_todos (todos ++ [mkTodo tid tnow a])).length = F.length + 1 := by
  refine ⟨?_, ?_, ?_⟩
  · unfold handle_add_task
    rw [hload, Option.map_some']
    have hw : dueWarn a = true := by simp [dueWarn, hdue, hne, hbad]
    rw [hw]
  · simp [mkTodo, hdue, hne, hbad]
  · simp [save_todos, decodeAll_length hload]

/-- The add options of a request whose due text is not a date. -/
def badDueArgs : AddArgs :=
  { add := "buy milk", category := none, priority := none
    due := some "06/01/2024" }

/-- C8: witness at a concrete bad due date on an empty store. -/
theorem C8_invalid_due_witness :
    (load_todos exFalse "data" [] = some [] ∧
      badDueArgs.due = some "06/01/2024" ∧ "06/01/2024" ≠ "" ∧
      strptimeDate "06/01/2024" = none) ∧
    (handle_add_task exFalse "data" decA.created_at decA.created_at
        badDueArgs [] =
      some (true, mkTodo decA.created_at decA.created_at badDueArgs,
        save_todos ([] ++ [mkTodo decA.created_at decA.created_at badDueArgs])) ∧
    (mkTodo decA.created_at decA.created_at badDueArgs).due_date = none ∧
    (save_todos ([] ++ [mkTodo decA.created_at decA.created_at badDueArgs])).length =
      ([] : List Payload).length + 1) :=
  ⟨⟨by decide, by decide, by decide, by decide⟩,
    C8_invalid_due_recovered exFalse "data" decA.created_at decA.created_at
      badDueArgs [] [] "06/01/2024" (by decide) (by decide) (by decide)
      (by decide)⟩

/-! ## The storage path used by `run_todo_app` (src/todo/core/todo.py,
src/src/storage.py, src/todo/core/state.py)

`run_todo_app` constructs the single storage object used by all four
handlers as `TodoStorage(root=Path("data"))`; `TodoStorage.__init__`
defaults the filename to `todo.json`, so the file read and written is
always `data/todo.json`. The `--file` (`-f`) option reaches only
`TodoState.__post_init__`, which stores it in `state.data_file` and logs
it; no storage code consults it. -/

/-- The full argparse options bag. -/
structure Args where
  add : Option String
  list : Bool
  complete : Option String
  delete : Option String
  category : Option String
  priority : Option String
  due : Option String
  completed : Bool
  pending : Bool
  file : String
  debug : Bool
deriving DecidableEq, Repr

/-- The storage root `run_todo_app` passes: the literal `Path("data")`,
for every parsed options bag. -/
def run_storage_root (args : Args) : String := "data"

/-- The storage file path: `self.root / filename` with the default
filename `todo.json` (no caller passes another). -/
def run_storage_filepath (args : Args) : String :=
  pathJoin (run_storage_root args) "todo.json"

/-- `str(Path(s))`: the normalized rendering of a path string. -/
def pathStr (s : String) : String := renderPath (isAbs s) (pathSegs s)

/-- The message `TodoState.__post_init__` logs. A falsy `args.file` leaves
`self.data_file` unset and the f-string read of it raises
(`none` models that crash). -/
def todoState_datafile_log (args : Args) : Option String :=
  if args.file ≠ "" then some ("Using data file: " ++ pathStr args.file)
  else none

/-- C9: for every pair of parsed options bags, the storage file path is
the same constant `data/todo.json` — in particular independent of the
`--file` (`-f`) option — while that option only determines the logged
message. -/
theorem C9_storage_path_fixed (a1 a2 : Args) :
    run_storage_filepath a1 = "data/todo.json" ∧
    run_storage_filepath a1 = run_storage_filepath a2 ∧
    (a1.file ≠ "" →
      todoState_datafile_log a1 =
        some ("Using data file: " ++ pathStr a1.file)) := by
  refine ⟨rfl, rfl, ?_⟩
  intro h
  simp [todoState_datafile_log, h]

/-- A default options bag (`-f` left at its default `todo.json`). -/
def argsDefault : Args :=
  { add := none, list := true, complete := none, delete := none
    category := none, priority := none, due := none, completed := false
    pending := false, file := "todo.json", debug := false }

/-- An options bag with a custom `-f` value. -/
def argsCustom : Args := { argsDefault with file := "elsewhere.json" }

/-- C9: witness — a custom `-f` value changes only the log message, not
the storage path. -/
theorem C9_storage_path_witness :
    run_storage_filepath argsCustom = "data/todo.json" ∧
    run_storage_filepath argsCustom = run_storage_filepath argsDefault ∧
    (argsCustom.file ≠ "" →
      todoState_datafile_log argsCustom =
        some ("Using data file: " ++ pathStr argsCustom.file)) :=
  C9_storage_path_fixed argsCustom argsDefault

/-! ## Sequences of public operations from an empty store (claim C7)

The public mutating surface reachable from the CLI: add (via
`handle_add_task`, which generates the id from the current time), remove,
and mark-complete. The store starts as the empty array `[]` that
`_ensure_todo_file` writes. -/

/-- One public operation. An add records the two `datetime.now()` instants
it observes (id generation and `created_at`). -/
inductive Op where
  | addT (tid tnow : DateTime) (a : AddArgs) : Op
  | removeT (i : String) : Op
  | markT (i : String) : Op
deriving DecidableEq, Repr

/-- Apply one operation to the stored file, returning the new file. -/
def applyOp (ex : String → Bool) (root : String) (F : List Payload) :
    Op → Option (List Payload)
  | .addT tid tnow a =>
    (handle_add_task ex root tid tnow a F).map fun x => x.2.2
  | .removeT i => (remove_todo ex root F i).map fun x => x.2
  | .markT i => (mark_completed ex root F i).map fun x => x.2

/-- Run a sequence of operations from a given file state. -/
def execFrom (ex : String → Bool) (root : String) :
    List Payload → List Op → Option (List Payload)
  | F, [] => some F
  | F, op :: ops =>
    match applyOp ex root F op with
    | none => none
    | some F2 => execFrom ex root F2 ops

/-- Run a sequence of operations from the freshly created empty store. -/
def execOps (ex : String → Bool) (root : String) (ops : List Op) :
    Option (List Payload) :=
  execFrom ex root [] ops

/-- The id fields stored in the file. -/
def fileIds (F : List Payload) : List (Option String) :=
  F.map fun p => p.id

/-- The id-generation instant of an operation, when it has one. -/
def Op.addTime : Op → Option DateTime
  | .addT tid _ _ => some tid
  | _ => none

/-- The id-generation instants of the adds in a sequence. -/
def opsAddTimes (ops : List Op) : List DateTime :=
  ops.filterMap Op.addTime

/-- The timestamps an operation observes are in the `datetime` range. -/
def Op.validOp : Op → Prop
  | .addT tid tnow _ => tid.valid ∧ tnow.valid
  | .removeT _ => True
  | .markT _ => True

instance : (op : Op) → Decidable op.validOp
  | .addT tid tnow _ => inferInstanceAs (Decidable (tid.valid ∧ tnow.valid))
  | .removeT _ => .isTrue trivial
  | .markT _ => .isTrue trivial

/-- The second-granularity part of a timestamp: exactly the fields that
`generate_todo_id` renders. -/
def secKey (d : DateTime) : Nat × Nat × Nat × Nat × Nat × Nat :=
  (d.year, d.month, d.day, d.hour, d.minute, d.second)

theorem pad2_length (n : Nat) : (pad2 n).length = 2 := rfl

theorem pad4_length (n : Nat) : (pad4 n).length = 4 := rfl

theorem pad2_inj {a b : Nat} (ha : a < 100) (hb : b < 100)
    (h : pad2 a = pad2 b) : a = b := by
  simp only [pad2, List.cons.injEq, and_true] at h
  obtain ⟨h1, h2⟩ := h
  have e1 := digitChar_inj _ _ (by omega) (by omega) h1
  have e2 := digitChar_inj _ _ (by omega) (by omega) h2
  omega

theorem pad4_inj {a b : Nat} (ha : a < 10000) (hb : b < 10000)
    (h : pad4 a = pad4 b) : a = b := by
  simp only [pad4] at h
  obtain ⟨e1, e2⟩ := List.append_inj h (by simp [pad2_length])
  have f1 := pad2_inj (by omega) (by omega) e1
  have f2 := pad2_inj (by omega) (by omega) e2
  omega

theorem fmtId_inj {t1 t2 : DateTime} (h1 : t1.valid) (h2 : t2.valid)
    (h : fmtId t1 = fmtId t2) : secKey t1 = secKey t2 := by
  obtain ⟨a1, a2, a3, a4, a5, a6, a7, a8, a9, a10⟩ := h1
  obtain ⟨b1, b2, b3, b4, b5, b6, b7, b8, b9, b10⟩ := h2
  have da1 := daysInMonth_le t1.year t1.month
  have da2 := daysInMonth_le t2.year t2.month
  unfold fmtId at h
  simp only [List.append_assoc, List.cons_append] at h
  obtain ⟨hy, h⟩ :=
    List.append_inj h ((pad4_length t1.year).trans (pad4_length t2.year).symm)
  obtain ⟨hmo, h⟩ :=
    List.append_inj h ((pad2_length t1.month).trans (pad2_length t2.month).symm)
  obtain ⟨hd, h⟩ :=
    List.append_inj h ((pad2_length t1.day).trans (pad2_length t2.day).symm)
  injection h with hu h
  obtain ⟨hh, h⟩ :=
    List.append_inj h ((pad2_length t1.hour).trans (pad2_length t2.hour).symm)
  obtain ⟨hmi, hs⟩ :=
    List.append_inj h
      ((pad2_length t1.minute).trans (pad2_length t2.minute).symm)
  have ey := pad4_inj (by omega) (by omega) hy
  have emo := pad2_inj (by omega) (by omega) hmo
  have ed := pad2_inj (by omega) (by omega) hd
  have eh := pad2_inj (by omega) (by omega) hh
  have emi := pad2_inj (by omega) (by omega) hmi
  have es := pad2_inj (by omega) (by omega) hs
  simp [secKey, ey, emo, ed, eh, emi, es]

theorem generate_id_inj {t1 t2 : DateTime} (h1 : t1.valid) (h2 : t2.valid)
    (hne : secKey t1 ≠ secKey t2) :
    generate_todo_id "todo" t1 ≠ generate_todo_id "todo" t2 := by
  intro h
  apply hne
  apply fmtId_inj h1 h2
  have hd := congrArg String.data h
  simp only [generate_todo_id, String.data_append] at hd
  exact List.append_cancel_left hd

theorem reload_valid {ex : String → Bool} {root : String} {r : TodoRecord}
    (h : ValidRec r) : ValidRec (reload ex root r) := h

theorem mkTodo_valid (tid tnow : DateTime) (a : AddArgs) (h : tnow.valid) :
    ValidRec (mkTodo tid tnow a) := by
  refine ⟨h, ?_⟩
  show DueValid (mkTodo tid tnow a).due_date
  simp only [mkTodo]
  cases hd : a.due with
  | none => trivial
  | some s =>
    by_cases hs : s = ""
    · simp [hs, DueValid]
    · simp only [hs, if_false]
      cases hp : strptimeDate s with
      | none => trivial
      | some d => exact strptimeDate_valid hp

theorem map_id_map_reload (ex : String → Bool) (root : String)
    (l : List TodoRecord) :
    ((l.map (reload ex root)).map fun t => t.id) = l.map fun t => t.id := by
  induction l with
  | nil => rfl
  | cons r rs ih => simp [ih, reload]

/-- The invariant maintained by every reachable store: the file is the
encoding of a list of valid records whose ids are pairwise distinct, and
every id was produced by `generate_todo_id` at one of the already-used
(valid) add instants. -/
def GoodStore (used : List DateTime) (F : List Payload) : Prop :=
  ∃ recs : List TodoRecord,
    F = save_todos recs ∧
    (∀ r ∈ recs, ValidRec r) ∧
    ((recs.map fun t => t.id).Nodup) ∧
    (∀ r ∈ recs, ∃ t ∈ used, t.valid ∧ r.id = generate_todo_id "todo" t)

theorem execFrom_good (ex : String → Bool) (root : String) :
    ∀ (ops : List Op) (used : List DateTime) (F F2 : List Payload),
      GoodStore used F →
      (∀ op ∈ ops, op.validOp) →
      ((used.map secKey ++ (opsAddTimes ops).map secKey).Nodup) →
      execFrom ex root F ops = some F2 →
      ∃ recs, F2 = save_todos recs ∧ ((recs.map fun t => t.id).Nodup)
  | [], used, F, F2, hg, _, _, hex => by
    cases hex
    obtain ⟨recs, h1, _, h2, _⟩ := hg
    exact ⟨recs, h1, h2⟩
  | .addT tid tnow a :: ops, used, F, F2, hg, hval, hnd, hex => by
    obtain ⟨recs, rfl, hvalid, hndids, hcov⟩ := hg
    obtain ⟨htid, htnow⟩ := hval _ (List.mem_cons_self _ _)
    have hload := load_save ex root recs hvalid
    simp only [execFrom, applyOp, handle_add_task, hload,
      Option.map_some'] at hex
    have hshape : opsAddTimes (Op.addT tid tnow a :: ops) =
        tid :: opsAddTimes ops := by
      simp [opsAddTimes, Op.addTime, List.filterMap_cons]
    rw [hshape] at hnd
    have hndkeys : (used.map secKey ++
        secKey tid :: (opsAddTimes ops).map secKey).Nodup := by
      simpa using hnd
    have hfresh : ∀ t ∈ used, secKey t ≠ secKey tid := by
      intro t ht heq
      rcases List.nodup_append.mp hndkeys with ⟨-, -, hdisj⟩
      exact hdisj (List.mem_map_of_mem secKey ht)
        (by rw [heq]; exact List.mem_cons_self _ _)
    refine execFrom_good ex root ops (tid :: used) _ F2 ?_
      (fun o ho => hval o (List.mem_cons_of_mem _ ho)) ?_ hex
    · refine ⟨recs.map (reload ex root) ++ [mkTodo tid tnow a], rfl, ?_, ?_, ?_⟩
      · intro r hr
        rcases List.mem_append.mp hr with hr | hr
        · obtain ⟨y, hy, rfl⟩ := List.mem_map.mp hr
          exact reload_valid (hvalid y hy)
        · rcases List.mem_singleton.mp hr with rfl
          exact mkTodo_valid tid tnow a htnow
      · rw [List.map_append, map_id_map_reload]
        rw [List.nodup_append]
        refine ⟨hndids, List.nodup_singleton _, ?_⟩
        intro x hx hx2
        obtain ⟨y, hy, rfl⟩ := List.mem_map.mp hx
        obtain ⟨t, ht, htv, hid⟩ := hcov y hy
        have hgen : y.id = generate_todo_id "todo" tid := by
          simpa [mkTodo] using List.mem_singleton.mp hx2
        exact absurd (hid ▸ hgen)
          (generate_id_inj htv htid (hfresh t ht))
      · intro r hr
        rcases List.mem_append.mp hr with hr | hr
        · obtain ⟨y, hy, rfl⟩ := List.mem_map.mp hr
          obtain ⟨t, ht, htv, hid⟩ := hcov y hy
          exact ⟨t, List.mem_cons_of_mem _ ht, htv, hid⟩
        · rcases List.mem_singleton.mp hr with rfl
          exact ⟨tid, List.mem_cons_self _ _, htid, rfl⟩
    · have hperm : (secKey tid ::
          (used.map secKey ++ (opsAddTimes ops).map secKey)).Nodup :=
        List.perm_middle.nodup_iff.mp hndkeys
      simpa [List.map_cons, List.cons_append] using hperm
  | .removeT i :: ops, used, F, F2, hg, hval, hnd, hex => by
    obtain ⟨recs, rfl, hvalid, hndids, hcov⟩ := hg
    have hload := load_save ex root recs hvalid
    have hshape : opsAddTimes (Op.removeT i :: ops) = opsAddTimes ops := by
      simp [opsAddTimes, Op.addTime, List.filterMap_cons]
    rw [hshape] at hnd
    have hval2 : ∀ o ∈ ops, o.validOp :=
      fun o ho => hval o (List.mem_cons_of_mem _ ho)
    simp only [execFrom, applyOp, remove_todo, hload,
      Option.map_some'] at hex
    split at hex
    · exact execFrom_good ex root ops used _ F2 ⟨recs, rfl, hvalid, hndids, hcov⟩
        hval2 hnd hex
    · refine execFrom_good ex root ops used _ F2 ?_ hval2 hnd hex
      refine ⟨(recs.map (reload ex root)).filter (notMatch i), rfl, ?_, ?_, ?_⟩
      · intro r hr
        obtain ⟨y, hy, rfl⟩ := List.mem_map.mp (List.mem_of_mem_filter hr)
        exact reload_valid (hvalid y hy)
      · have hsub :
            ((recs.map (reload ex root)).filter (notMatch i)).Sublist
              (recs.map (reload ex root)) := List.filter_sublist _
        have hmap := hsub.map fun t => t.id
        rw [map_id_map_reload] at hmap
        exact hndids.sublist hmap
      · intro r hr
        obtain ⟨y, hy, rfl⟩ := List.mem_map.mp (List.mem_of_mem_filter hr)
        exact hcov y hy
  | .markT i :: ops, used, F, F2, hg, hval, hnd, hex => by
    obtain ⟨recs, rfl, hvalid, hndids, hcov⟩ := hg
    have hload := load_save ex root recs hvalid
    have hshape : opsAddTimes (Op.markT i :: ops) = opsAddTimes ops := by
      simp [opsAddTimes, Op.addTime, List.filterMap_cons]
    rw [hshape] at hnd
    have hval2 : ∀ o ∈ ops, o.validOp :=
      fun o ho => hval o (List.mem_cons_of_mem _ ho)
    simp only [execFrom, applyOp, mark_completed, hload,
      Option.map_some'] at hex
    split at hex
    · refine execFrom_good ex root ops used _ F2 ?_ hval2 hnd hex
      refine ⟨markFirst (recs.map (reload ex root)) i, rfl, ?_, ?_, ?_⟩
      · refine markFirst_valid ?_
        intro r hr
        obtain ⟨y, hy, rfl⟩ := List.mem_map.mp hr
        exact reload_valid (hvalid y hy)
      · rw [markFirst_map_id, map_id_map_reload]
        exact hndids
      · intro r hr
        have hmem : r.id ∈
            (markFirst (recs.map (reload ex root)) i).map fun t => t.id :=
          List.mem_map_of_mem _ hr
        rw [markFirst_map_id, map_id_map_reload] at hmem
        obtain ⟨y, hy, hid⟩ := List.mem_map.mp hmem
        obtain ⟨t, ht, htv, hid2⟩ := hcov y hy
        exact ⟨t, ht, htv, by rw [← hid, hid2]⟩
    · exact execFrom_good ex root ops used _ F2 ⟨recs, rfl, hvalid, hndids, hcov⟩
        hval2 hnd hex

theorem fileIds_save (recs : List TodoRecord) :
    fileIds (save_todos recs) = recs.map fun t => some t.id := by
  induction recs with
  | nil => rfl
  | cons r rs ih => simp_all [fileIds, save_todos, to_json_dict]

/-- The second `2024-01-01 00:00:00` (microseconds differ, seconds equal). -/
def cexT : DateTime := ⟨2024, 1, 1, 0, 0, 0, 0⟩

/-- One second later. -/
def cexT2 : DateTime := ⟨2024, 1, 1, 0, 0, 1, 0⟩

/-- The first add request of the id-collision scenario. -/
def cexAdd1 : AddArgs :=
  { add := "first", category := none, priority := none, due := none }

/-- The second add request of the id-collision scenario. -/
def cexAdd2 : AddArgs :=
  { add := "second", category := none, priority := none, due := none }

/-- C7: counterexample. Two adds executed within the same second (both at
2024-01-01 00:00:00) — a sequence of public operations from the empty
store — leave the file holding two records with the identical id
`todo_20240101_000000`: the uniqueness invariant does not hold for every
reachable store, because `generate_todo_id` has second granularity and
`add_todo` performs no uniqueness check. -/
theorem C7_unique_ids_counterexample :
    execOps exFalse "data" [.addT cexT cexT cexAdd1, .addT cexT cexT cexAdd2] =
      some [to_json_dict (reload exFalse "data" (mkTodo cexT cexT cexAdd1)),
        to_json_dict (mkTodo cexT cexT cexAdd2)] ∧
    fileIds [to_json_dict (reload exFalse "data" (mkTodo cexT cexT cexAdd1)),
        to_json_dict (mkTodo cexT cexT cexAdd2)] =
      [some "todo_20240101_000000", some "todo_20240101_000000"] ∧
    ¬(fileIds [to_json_dict (reload exFalse "data" (mkTodo cexT cexT cexAdd1)),
        to_json_dict (mkTodo cexT cexT cexAdd2)]).Nodup := by
  decide

/-- C7 (amended): for every sequence of public operations (add, remove,
mark-complete) from the empty store whose add operations all happen at
pairwise distinct second-granularity instants (and whose timestamps are in
the `datetime` range), every reachable stored file has pairwise distinct
ids. -/
theorem C7_unique_ids_amended (ex : String → Bool) (root : String)
    (ops : List Op) (hval : ∀ op ∈ ops, op.validOp)
    (hdist : ((opsAddTimes ops).map secKey).Nodup)
    (F : List Payload) (hex : execOps ex root ops = some F) :
    (fileIds F).Nodup := by
  obtain ⟨recs, rfl, hnd⟩ := execFrom_good ex root ops [] [] F
    ⟨[], rfl, by simp, List.nodup_nil, by simp⟩ hval (by simpa using hdist)
    hex
  rw [fileIds_save]
  have hmm : (recs.map fun t => some t.id) =
      (recs.map fun t => t.id).map some := by
    rw [List.map_map]
    rfl
  rw [hmm]
  exact hnd.map (Option.some_injective String)

/-- C7: witness — two adds one second apart, then a remove of a missing id
and a mark of the first id, keep the ids unique. -/
theorem C7_unique_ids_witness :
    ((∀ op ∈ ([.addT cexT cexT cexAdd1, .addT cexT2 cexT2 cexAdd2] :
        List Op), op.validOp) ∧
      ((opsAddTimes [.addT cexT cexT cexAdd1,
        .addT cexT2 cexT2 cexAdd2]).map secKey).Nodup ∧
      execOps exFalse "data" [.addT cexT cexT cexAdd1,
          .addT cexT2 cexT2 cexAdd2] =
        some [to_json_dict (reload exFalse "data" (mkTodo cexT cexT cexAdd1)),
          to_json_dict (mkTodo cexT2 cexT2 cexAdd2)]) ∧
    (fileIds [to_json_dict (reload exFalse "data" (mkTodo cexT cexT cexAdd1)),
      to_json_dict (mkTodo cexT2 cexT2 cexAdd2)]).Nodup :=
  ⟨⟨by decide, by decide, by decide⟩,
    C7_unique_ids_amended exFalse "data"
      [.addT cexT cexT cexAdd1, .addT cexT2 cexT2 cexAdd2] (by decide)
      (by decide) _ (by decide)⟩

end TodoApp
